import Mathlib

/-!
Shallow embedding of the core of the terraform-provider-solidserver
repository: the address codec and CIDR helpers of
`solidserver/resource_ip_space.go`, the allocation engine
(`ipaddressfindfree`, `vlanidfindfree`) of the same file, and the
session/transport layer (`SubmitRequest`, `GetVersion`, `Request`,
`NewSOLIDserver`).

Go machine integers are modelled as `Nat`/`Int` with explicit `% 2^32`
where `uint32` wrap-around matters.  Go standard-library routines used
by the code (`strings.Split`, `strconv.Atoi`, `strconv.Itoa`,
`fmt.Sscanf` with the formats appearing in the source, `netip.ParseAddr`
on dotted-quad input, `netip.Addr.Next/Prev/Compare/String`) are
modelled by the `go*`-named definitions below, each faithful to the Go
semantics on the value domain the provider feeds it.
-/

namespace SolidServer

/-- Character class test for an ASCII decimal digit, by code point. -/
def isDigitCh (c : Char) : Bool :=
  48 ≤ c.toNat && c.toNat ≤ 57

/-- Numeric value of an ASCII decimal digit character. -/
def digitVal (c : Char) : Nat :=
  c.toNat - 48

/-- Character class test for an ASCII hexadecimal digit (both cases). -/
def isHexCh (c : Char) : Bool :=
  (48 ≤ c.toNat && c.toNat ≤ 57) ||
  (97 ≤ c.toNat && c.toNat ≤ 102) ||
  (65 ≤ c.toNat && c.toNat ≤ 70)

/-- Numeric value of an ASCII hexadecimal digit character. -/
def hexVal (c : Char) : Nat :=
  if 48 ≤ c.toNat && c.toNat ≤ 57 then c.toNat - 48
  else if 97 ≤ c.toNat && c.toNat ≤ 102 then c.toNat - 87
  else if 65 ≤ c.toNat && c.toNat ≤ 70 then c.toNat - 55
  else 0

/-- ASCII digit character of a value below 10. -/
def digitChar (n : Nat) : Char :=
  Char.ofNat (48 + n)

/-- Lowercase ASCII hexadecimal digit character of a value below 16. -/
def hexDigitChar (n : Nat) : Char :=
  if n < 10 then Char.ofNat (48 + n) else Char.ofNat (87 + n)

/-- Decimal digit list of a natural number (fuel-driven so that it is
structurally recursive; the fuel `n + 1` always suffices). -/
def decDigitsAux : Nat → Nat → List Char
  | 0, _ => []
  | fuel + 1, n =>
    if n < 10 then [digitChar n]
    else decDigitsAux fuel (n / 10) ++ [digitChar (n % 10)]

/-- Decimal digit list of a natural number. -/
def decDigits (n : Nat) : List Char :=
  decDigitsAux (n + 1) n

/-- Model of Go `fmt` decimal formatting (`%d`) of a non-negative value. -/
def decStr (n : Nat) : String :=
  ⟨decDigits n⟩

/-- Model of Go `strconv.Itoa`. -/
def goItoa (n : Int) : String :=
  if n < 0 then "-" ++ decStr n.natAbs else decStr n.toNat

/-- Model of Go `strings.Split` on a one-character separator, over
character lists.  Like Go, it always returns at least one piece and
keeps empty pieces. -/
def goSplitCh (sep : Char) : List Char → List (List Char)
  | [] => [[]]
  | c :: cs =>
    if c = sep then [] :: goSplitCh sep cs
    else
      match goSplitCh sep cs with
      | [] => [[c]]
      | h :: t => (c :: h) :: t

/-- Model of Go `strings.Split` on a one-character separator. -/
def goSplit (sep : Char) (s : String) : List String :=
  (goSplitCh sep s.data).map String.mk

/-- Value of a list of decimal digit characters, most significant first. -/
def digitsVal (l : List Char) : Nat :=
  l.foldl (fun a c => 10 * a + digitVal c) 0

/-- Largest value of Go's 64-bit `int`, used by the `strconv.Atoi`
range check. -/
def maxInt64 : Int := 9223372036854775807

/-- Model of Go `strconv.Atoi`: the returned pair is (value, ok).
On a syntax error Go returns `(0, err)`; on a range error it returns
the saturated value together with an error.  `ok = false` models a
non-nil error. -/
def goAtoi (s : String) : Int × Bool :=
  let (neg, ds) :=
    match s.data with
    | '-' :: t => (true, t)
    | '+' :: t => (false, t)
    | t => (false, t)
  if ds = [] then (0, false)
  else if ds.all isDigitCh then
    let v : Int := (digitsVal ds : Int)
    if neg then
      if v > maxInt64 + 1 then (-(maxInt64 + 1), false) else (-v, true)
    else
      if v > maxInt64 then (maxInt64, false) else (v, true)
  else (0, false)

/-- Scan of at most two hexadecimal digits (at least one) from the head
of a character list, as Go `fmt.Sscanf` does for a `%02x` verb; returns
the value and the unconsumed rest. -/
def scanHex2 : List Char → Option (Nat × List Char)
  | [] => none
  | c1 :: rest =>
    if isHexCh c1 then
      match rest with
      | c2 :: rest2 =>
        if isHexCh c2 then some (16 * hexVal c1 + hexVal c2, rest2)
        else some (hexVal c1, rest)
      | [] => some (hexVal c1, [])
    else none

/-- Model of Go `fmt.Sprintf "%02x%02x%02x%02x"` for one octet value
(all call sites guarantee the value is at most 255): exactly two
lowercase hexadecimal digits. -/
def fmtHex02 (n : Nat) : List Char :=
  [hexDigitChar (n / 16), hexDigitChar (n % 16)]

/-- Model of Go `fmt.Sprintf "%04s"`: left-pad to width 4.  The `0`
flag makes Go pad with leading zeros rather than spaces. -/
def pad04 (l : List Char) : List Char :=
  if 4 ≤ l.length then l else List.replicate (4 - l.length) '0' ++ l

/-! ### Address codec (`solidserver/resource_ip_space.go`) -/

/-- Go source: `longtoip` — convert an unsigned 32-bit integer into a
dotted IP string.  The Go source additionally contains a dead
`if a < 0` branch (impossible for `uint32`), omitted here. -/
def longtoip (iplong : Nat) : String :=
  let a := (iplong &&& 0xFF000000) >>> 24
  let b := (iplong &&& 0xFF0000) >>> 16
  let c := (iplong &&& 0xFF00) >>> 8
  let d := iplong &&& 0xFF
  decStr a ++ "." ++ decStr b ++ "." ++ decStr c ++ "." ++ decStr d

/-- Go source: `hexiptoip` — convert a hexadecimal IP string into a
dotted IP string via `fmt.Sscanf(hexip, "%02x%02x%02x%02x", ...)`;
returns `""` unless all four scans succeed (`count == 4`). -/
def hexiptoip (hexip : String) : String :=
  match scanHex2 hexip.data with
  | none => ""
  | some (a, r1) =>
    match scanHex2 r1 with
    | none => ""
    | some (b, r2) =>
      match scanHex2 r2 with
      | none => ""
      | some (c, r3) =>
        match scanHex2 r3 with
        | none => ""
        | some (d, _) =>
          decStr a ++ "." ++ decStr b ++ "." ++ decStr c ++ "." ++ decStr d

/-- Go source: `iptohexip` — convert a dotted IP string into a
hexadecimal IP string; validates that there are four components and
that each parsed component is within 0..255, else returns `""`.
Component parse errors of `strconv.Atoi` are ignored (the erroneous
value is used). -/
def iptohexip (ip : String) : String :=
  match goSplit '.' ip with
  | [s1, s2, s3, s4] =>
    let a := (goAtoi s1).1
    let b := (goAtoi s2).1
    let c := (goAtoi s3).1
    let d := (goAtoi s4).1
    if 0 ≤ a && a ≤ 255 && 0 ≤ b && b ≤ 255 &&
       0 ≤ c && c ≤ 255 && 0 ≤ d && d ≤ 255 then
      ⟨fmtHex02 a.toNat ++ fmtHex02 b.toNat ++ fmtHex02 c.toNat ++ fmtHex02 d.toNat⟩
    else ""
  | _ => ""

/-- Go `uint32(x)` conversion of an `int` value: reduction modulo 2^32
(two's complement wrap for negative input). -/
def goUint32 (x : Int) : Nat :=
  (x % 4294967296).toNat

/-- Go source: `iptolong` — convert a dotted IP string into an unsigned
32-bit integer.  Only the component count is validated; each component
is converted with `uint32(a)` and the sum wraps modulo 2^32.  Returns 0
when the component count is not 4. -/
def iptolong (ip : String) : Nat :=
  match goSplit '.' ip with
  | [s1, s2, s3, s4] =>
    let a := (goAtoi s1).1
    let b := (goAtoi s2).1
    let c := (goAtoi s3).1
    let d := (goAtoi s4).1
    (goUint32 a * 0x1000000 % 4294967296 +
     goUint32 b * 0x10000 % 4294967296 +
     goUint32 c * 0x100 % 4294967296 +
     goUint32 d) % 4294967296
  | _ => 0

/-- Go source: `ip6toptr` — convert an IPv6 address string into a PTR
record name: split on `:`, then emit every character of every group in
reverse order, each followed by a dot, and append `ip6.arpa`.  Despite
its documentation comment (`Return an empty string in case of
failure`), the function has no failure path. -/
def ip6toptr (ip : String) : String :=
  let buffer := goSplitCh ':' ip.data
  ⟨(buffer.reverse.map List.reverse).flatten.flatMap (fun c => [c, '.'])⟩ ++ "ip6.arpa"

/-- Go source: `ip6tohexip6` — convert a colon-separated IPv6 string
into the concatenated wire hex string, left-padding every group to four
characters with `%04s`; returns `""` unless there are 8 groups. -/
def ip6tohexip6 (ip : String) : String :=
  match goSplitCh ':' ip.data with
  | [g1, g2, g3, g4, g5, g6, g7, g8] =>
    ⟨pad04 g1 ++ pad04 g2 ++ pad04 g3 ++ pad04 g4 ++
     pad04 g5 ++ pad04 g6 ++ pad04 g7 ++ pad04 g8⟩
  | _ => ""

/-- Index-driven worker of `hexip6toip6`: a colon is inserted before
every character whose index is a positive multiple of 4. -/
def hexip6toip6Aux : Nat → List Char → List Char
  | _, [] => []
  | i, c :: cs =>
    (if i = 0 ∨ i % 4 ≠ 0 then [c] else [':', c]) ++ hexip6toip6Aux (i + 1) cs

/-- Go source: `hexip6toip6` — convert a wire hex IPv6 string into the
colon-separated form by inserting `:` every four characters. -/
def hexip6toip6 (hexip : String) : String :=
  ⟨hexip6toip6Aux 0 hexip.data⟩

/-- Loop of `sizetoprefixlength`: while the prefix length is positive
and the size exceeds 1, halve the size (Go `int` division truncates
toward zero) and decrement the length. -/
def sizetoprefixlengthAux : Nat → Int → Nat
  | 0, _ => 0
  | pl + 1, size =>
    if 1 < size then sizetoprefixlengthAux pl (size.tdiv 2) else pl + 1

/-- Go source: `sizetoprefixlength` — compute the prefix length from
the size of a CIDR prefix, starting from 32 and halving. -/
def sizetoprefixlength (size : Int) : Int :=
  (sizetoprefixlengthAux 32 size : Int)

/-- Go source: `prefixlengthtosize` — `1 << (32 - length)` for lengths
in 0..32, `-1` otherwise. -/
def prefixlengthtosize (length : Int) : Int :=
  if 0 ≤ length ∧ length ≤ 32 then (2 : Int) ^ ((32 - length).toNat) else -1

/-! ### Model of `net/netip` on the values the provider feeds it -/

/-- Validation of one dotted-quad field as `netip.ParseAddr` performs
it: one to three decimal digits, no leading zero (except `0` itself),
value at most 255. -/
def parseV4Field (l : List Char) : Option Nat :=
  if l = [] then none
  else if !l.all isDigitCh then none
  else if 3 < l.length then none
  else if 1 < l.length ∧ l.head? = some '0' then none
  else if digitsVal l ≤ 255 then some (digitsVal l) else none

/-- Model of `netip.ParseAddr` restricted to IPv4 dotted-quad syntax,
returning the address as a `Nat` below 2^32.  The provider only applies
it to outputs of `hexiptoip`, which are either `""` or canonical dotted
quads, so the IPv6 grammar (inputs containing `:`) never arises and is
mapped to `none` like any other non-dotted-quad string. -/
def goParseAddr (s : String) : Option Nat :=
  match (goSplitCh '.' s.data).map parseV4Field with
  | [some a, some b, some c, some d] => some (((a * 256 + b) * 256 + c) * 256 + d)
  | _ => none

/-- State of a `netip.Addr` loop cursor in `ipaddressfindfree`: either
a valid IPv4 address, or the invalid zero `Addr` that
`netip.Addr.Next`/`Prev` return on overflow (Go keeps incrementing its
128-bit payload, which never regains validity). -/
inductive GoAddr where
  | v4 (n : Nat)
  | invalid (lo : Nat)
deriving DecidableEq

/-- Model of `netip.Addr.Next`: increment, overflowing from the top
IPv4 address to the invalid zero `Addr`; an invalid cursor stays
invalid with its payload incremented. -/
def addrNext : GoAddr → GoAddr
  | .v4 n => if n = 4294967295 then .invalid 0 else .v4 (n + 1)
  | .invalid lo => .invalid (lo + 1)

/-- Model of `netip.Addr.Prev`: decrement, underflowing from address 0
to the invalid zero `Addr`; an invalid zero cursor stays itself. -/
def addrPrev : GoAddr → GoAddr
  | .v4 n => if n = 0 then .invalid 0 else .v4 (n - 1)
  | .invalid lo => .invalid (lo - 1)

/-- Model of `cur.Compare(end) <= 0` against a valid IPv4 bound:
`Compare` orders by bit length first, so any invalid `Addr` (bit length
0) sorts below every valid address. -/
def addrLE (cur : GoAddr) (bound : Nat) : Bool :=
  match cur with
  | .v4 n => n ≤ bound
  | .invalid _ => true

/-- Model of `cur.Compare(start) >= 0` against a valid IPv4 bound: an
invalid `Addr` sorts below every valid address. -/
def addrGE (cur : GoAddr) (bound : Nat) : Bool :=
  match cur with
  | .v4 n => bound ≤ n
  | .invalid _ => false

/-- Model of `netip.Addr.String` on the cursor: a valid IPv4 address
prints in canonical dotted form, the invalid `Addr` prints as
Go's `"invalid IP"`. -/
def addrString : GoAddr → String
  | .v4 n => longtoip n
  | .invalid _ => "invalid IP"

/-! ### Allocation engine (`solidserver/resource_ip_space.go`) -/

/-- Decoded record of a `rest/ip_free_address_list` response, keeping
the two fields `ipaddressfindfree` reads; `none` models a missing field
or a failed `.(string)` type assertion. -/
structure FreeRangeRec where
  free_start_ip_addr : Option String
  free_end_ip_addr : Option String
deriving DecidableEq

/-- Range decoding of `ipaddressfindfree`: both hex boundaries are
converted with `hexiptoip` and then parsed with `netip.ParseAddr`; a
missing field or an unparsable boundary skips the record. -/
def parseFreeRange (r : FreeRangeRec) : Option (Nat × Nat) :=
  match r.free_start_ip_addr, r.free_end_ip_addr with
  | some sh, some eh =>
    match goParseAddr (hexiptoip sh), goParseAddr (hexiptoip eh) with
    | some s, some e => some (s, e)
    | _, _ => none
  | _, _ => none

/-- Ascending enumeration loop of `ipaddressfindfree` (`method ==
"start"`): while `currentIP.Compare(endIP) <= 0`, return the
accumulator as soon as it holds 32 entries (the `Bool` result records
this early `return`), else append `currentIP.String()` and step with
`Next()`.  The fuel argument is `33 - acc.length`, always sufficient
because every iteration either returns or appends. -/
def walkStart (e : Nat) : Nat → GoAddr → List String → List String × Bool
  | 0, _, acc => (acc, true)
  | fuel + 1, cur, acc =>
    if addrLE cur e then
      if 32 ≤ acc.length then (acc, true)
      else walkStart e fuel (addrNext cur) (acc ++ [addrString cur])
    else (acc, false)

/-- Descending enumeration loop of `ipaddressfindfree` (`method ==
"end"`): while `currentIP.Compare(startIP) >= 0`, with the same 32-cap
early return, stepping with `Prev()`. -/
def walkEnd (s : Nat) : Nat → GoAddr → List String → List String × Bool
  | 0, _, acc => (acc, true)
  | fuel + 1, cur, acc =>
    if addrGE cur s then
      if 32 ≤ acc.length then (acc, true)
      else walkEnd s fuel (addrPrev cur) (acc ++ [addrString cur])
    else (acc, false)

/-- Record loop of `ipaddressfindfree` with `method == "start"`:
unparsable records are skipped, and an early return from the inner walk
returns its accumulator immediately, without visiting later records. -/
def findfreeStartLoop : List FreeRangeRec → List String → List String
  | [], acc => acc
  | r :: rest, acc =>
    match parseFreeRange r with
    | none => findfreeStartLoop rest acc
    | some (s, e) =>
      match walkStart e (33 - acc.length) (GoAddr.v4 s) acc with
      | (acc', true) => acc'
      | (acc', false) => findfreeStartLoop rest acc'

/-- Record loop of `ipaddressfindfree` with `method == "end"`. -/
def findfreeEndLoop : List FreeRangeRec → List String → List String
  | [], acc => acc
  | r :: rest, acc =>
    match parseFreeRange r with
    | none => findfreeEndLoop rest acc
    | some (s, e) =>
      match walkEnd s (33 - acc.length) (GoAddr.v4 e) acc with
      | (acc', true) => acc'
      | (acc', false) => findfreeEndLoop rest acc'

/-- Candidate list computed by `ipaddressfindfree` for strategy
`"start"` from a decoded 200-response body. -/
def ipaddressfindfreeStart (bufs : List FreeRangeRec) : List String :=
  findfreeStartLoop bufs []

/-- Candidate list computed by `ipaddressfindfree` for strategy
`"end"` from a decoded 200-response body. -/
def ipaddressfindfreeEnd (bufs : List FreeRangeRec) : List String :=
  findfreeEndLoop bufs []

/-- Mathematical model of what the ascending walk contributes for one
decoded range: the addresses from `s` to `e` in order — followed, when
`e` is the top IPv4 address (the walk's `Next()` then yields the
invalid `Addr`, which still compares at most `endIP`), by enough
`"invalid IP"` strings to saturate the 32 cap. -/
def rangeAddrsUp (s e : Nat) : List String :=
  (List.range' s (e + 1 - s)).map longtoip ++
  (if s ≤ e ∧ e = 4294967295 then List.replicate 33 "invalid IP" else [])

/-- Remaining contribution of an ascending walk cursor. -/
def curModelUp (e : Nat) : GoAddr → List String
  | .v4 a => rangeAddrsUp a e
  | .invalid _ => List.replicate 33 "invalid IP"

/-- WHERE clause built by `ipaddressfindfree` for strategies `"start"`
and `"end"`. -/
def ipFreeWhereClause (subnetID poolID : String) : String :=
  "free_start_ip_addr != free_end_ip_addr AND subnet_id=" ++ subnetID ++
  (if 0 < poolID.length then " AND pool_id = " ++ poolID else "")

/-- Query parameters sent by `ipaddressfindfree` to
`rest/ip_free_address_list` for strategies `"start"` and `"end"`. -/
def ipFreeAddressParams (subnetID poolID method : String) : List (String × String) :=
  [("WHERE", ipFreeWhereClause subnetID poolID),
   ("ORDERBY", if method = "start" then "free_start_ip_addr asc" else "free_end_ip_addr desc")]

/-- Decoded record of a `rest/vlmvlan_list` response, keeping the
fields `vlanidfindfree` reads. -/
structure VlanRec where
  vlmvlan_vlan_id : Option String
  free_start_vlan_id : Option String
  free_end_vlan_id : Option String
deriving DecidableEq

/-- Inner range walk of `vlanidfindfree` on a 7.0+ server: starting
from the `strconv.Atoi` value of the range start (errors ignored),
append `strconv.Itoa(vnID)` while `vnID < maxVnID` and fewer than 8
entries were taken from this range. -/
def vlanRangeWalk : Nat → Int → Int → List String
  | 0, _, _ => []
  | j + 1, vnID, maxVnID =>
    if vnID < maxVnID then goItoa vnID :: vlanRangeWalk j (vnID + 1) maxVnID
    else []

/-- Record loop of `vlanidfindfree`, accumulating over the decoded
response: below version 700 each record contributes its
`vlmvlan_vlan_id` field, from 700 on each record contributes its walked
free range. -/
def vlanLoop (version : Int) : List VlanRec → List String → List String
  | [], acc => acc
  | r :: rest, acc =>
    if version < 700 then
      match r.vlmvlan_vlan_id with
      | some vnID => vlanLoop version rest (acc ++ [vnID])
      | none => vlanLoop version rest acc
    else
      match r.free_start_vlan_id, r.free_end_vlan_id with
      | some startVlanID, some endVlanID =>
        vlanLoop version rest
          (acc ++ vlanRangeWalk 8 (goAtoi startVlanID).1 (goAtoi endVlanID).1)
      | _, _ => vlanLoop version rest acc

/-- Candidate list computed by `vlanidfindfree` from a decoded
200-response body, given the normalized session version. -/
def vlanidfindfreeCore (version : Int) (bufs : List VlanRec) : List String :=
  vlanLoop version bufs []

/-- Query parameters sent by `vlanidfindfree` to `rest/vlmvlan_list`:
a limit of 16 records, and a WHERE clause whose shape bifurcates on the
normalized server version. -/
def vlanParams (version : Int) (vlmdomainNameLower : String) : List (String × String) :=
  [("limit", "16"),
   ("WHERE",
     if version < 700 then
       "vlmdomain_name=\x27" ++ vlmdomainNameLower ++ "\x27 AND row_enabled=\x272\x27"
     else
       "vlmdomain_name=\x27" ++ vlmdomainNameLower ++ "\x27 AND type=\x27free\x27")]

/-! ### Session/transport layer (the provider's `SOLIDserver` file) -/

/-- Transport-level error classification used by `SubmitRequest`: only
an error that is a `net.Error` whose `Timeout()` is true triggers a
retry; everything else is non-retryable. -/
inductive GoErr where
  | netTimeout
  | nonTimeout
deriving DecidableEq

/-- HTTP response as far as the session layer inspects it. -/
structure HttpResp where
  statusCode : Nat
deriving DecidableEq

/-- Outcome of one HTTP attempt inside `SubmitRequest`: either a
response with no errors, or a non-empty error list, of which the loop
over `errs` only ever acts on the first element. -/
inductive AttemptOutcome where
  | ok (resp : HttpResp) (body : String)
  | fail (firstErr : GoErr)
deriving DecidableEq

/-- Result of `SubmitRequest`. -/
inductive SubmitResult where
  | ok (resp : HttpResp) (body : String)
  | unsupported
  | nonRetryable
  | exhausted
deriving DecidableEq

/-- Per-method attempt budget of `SubmitRequest`
(`httpRequestTimings[...].maxTry`); an unknown method key yields Go's
zero value 0, so the retry loop never runs for it. -/
def maxTryOf (method : String) : Nat :=
  if method = "post" ∨ method = "put" ∨ method = "delete" then 1
  else if method = "get" then 6
  else 0

/-- Method support test of `SubmitRequest`
(`httpRequestMethods` lookup, performed inside the loop). -/
def supportedMethod (method : String) : Bool :=
  method = "post" || method = "put" || method = "delete" || method = "get"

/-- Retry loop of `SubmitRequest` (`KeepTrying`), driven by the oracle
`att` giving the outcome of each attempt: an errorless attempt returns
its response; a first error that is a network timeout increments the
retry counter and loops; any other first error returns the
non-retryable error.  `remaining` is `maxTry - retryCount`; reaching 0
produces the retry-count-exceeded error. -/
def submitLoop (method : String) (att : Nat → AttemptOutcome) :
    Nat → Nat → SubmitResult
  | 0, _ => .exhausted
  | remaining + 1, retryCount =>
    if supportedMethod method then
      match att retryCount with
      | .ok resp body => .ok resp body
      | .fail .netTimeout => submitLoop method att remaining (retryCount + 1)
      | .fail .nonTimeout => .nonRetryable
    else .unsupported

/-- Go source: `SubmitRequest` — run the per-method bounded retry loop
from attempt 0. -/
def SubmitRequest (method : String) (att : Nat → AttemptOutcome) : SubmitResult :=
  submitLoop method att (maxTryOf method) 0

/-- Outcome of the `GetVersion` probe request (`rest/member_list` where
`member_is_me=\x271\x27`): either a transport error from
`SubmitRequest`, or a response status together with the
`member_version` string of the first decoded record when present. -/
inductive ProbeOutcome where
  | err
  | ok (statusCode : Nat) (memberVersion : Option String)
deriving DecidableEq

/-- Fatal configuration error carried by `diag.Errorf`. -/
inductive Diag where
  | fatal (msg : String)
deriving DecidableEq

/-- Version concatenation loop shared by both `GetVersion` paths: over
at most the first three dot-separated components, multiply the
accumulator by 10 and add the `strconv.Atoi` value of the component, a
parse error contributing 0. -/
def versionConcatAux : Nat → List String → Int → Int
  | 0, _, v => v
  | _, [], v => v
  | i + 1, p :: ps, v =>
    versionConcatAux i ps (v * 10 + (if (goAtoi p).2 then (goAtoi p).1 else 0))

/-- Fall-through of `GetVersion` when the 200-with-`member_version`
branch did not return: the (inverted) Go test `resp.StatusCode <= 400
&& resp.StatusCode < 500` guards the declared-version fallback — a
non-empty declared version is concatenated (without the below-100
scaling), an empty one is the fatal insufficient-permissions error —
and every remaining status is the fatal no-answer error. -/
def getVersionFallback (statusCode : Nat) (version : String) : Except Diag Int :=
  if statusCode ≤ 400 ∧ statusCode < 500 then
    if version ≠ "" then
      .ok (versionConcatAux 3 (goSplit '.' version) 0)
    else
      .error (.fatal ("Error retrieving SOLIDserver Version (Insufficient Permissions). " ++
        "Consider setting the SOLIDserver\x27s version using the provider options.\n"))
  else
    .error (.fatal "Error retrieving SOLIDserver Version (No Answer)\n")

/-- Go source: `GetVersion` — resolve the session version from the
probe outcome and the caller-declared version string.  On a 200 probe
with a `member_version` field the concatenated value is scaled by 10
when below 100; every other non-error probe falls through to
`getVersionFallback`; a transport error is fatal. -/
def GetVersion (probe : ProbeOutcome) (version : String) : Except Diag Int :=
  match probe with
  | .ok statusCode (some rversion) =>
    if statusCode = 200 then
      let v := versionConcatAux 3 (goSplit '.' rversion) 0
      .ok (if v < 100 then v * 10 else v)
    else getVersionFallback statusCode version
  | .ok statusCode none => getVersionFallback statusCode version
  | .err => .error (.fatal "Error retrieving SOLIDserver Version (transport error)\n")

/-- Session fields mutated by the transport layer. -/
structure SessionState where
  Version : Int
  Authenticated : Bool
deriving DecidableEq

/-- Go source: `NewSOLIDserver` — the session starts with version 0 and
`Authenticated = false` before `GetVersion` runs. -/
def NewSOLIDserver : SessionState :=
  { Version := 0, Authenticated := false }

/-- Status-code retry configuration installed by `Request` on the
gorequest client: 3 attempts, with the retryable status list chosen
from the session's `Authenticated` flag. -/
def retryConfig (authenticated : Bool) : Nat × List Nat :=
  (3, if authenticated then [408, 429, 500, 401] else [429, 500])

/-- Flag update of `Request`: when `SubmitRequest` fails, `Request`
returns before touching the flag; on a response, a status in
`[200, 204]` sets `Authenticated` (an already-true flag stays true). -/
def requestAuthAfter (authenticated : Bool) (res : SubmitResult) : Bool :=
  match res with
  | .ok resp _ => authenticated || (200 ≤ resp.statusCode && resp.statusCode ≤ 204)
  | _ => authenticated

/-- Authenticated flag after a sequence of `Request` calls with the
given `SubmitRequest` results. -/
def authFold (authenticated : Bool) (results : List SubmitResult) : Bool :=
  results.foldl requestAuthAfter authenticated

/-- Spec-side version normalization (the concatenation step, as the
spec words it): fold the first up to three dot-separated components,
a component that `strconv.Atoi` rejects contributing 0. -/
def specVersionNumber (s : String) : Int :=
  ((goSplit '.' s).take 3).foldl
    (fun v p => v * 10 + (if (goAtoi p).2 then (goAtoi p).1 else 0)) 0

/-- Spec-side version normalization including the below-100 branch
scaling: values below 100 are multiplied by 10. -/
def specScaledVersion (s : String) : Int :=
  if specVersionNumber s < 100 then specVersionNumber s * 10 else specVersionNumber s

/-- Contribution of one decoded `vlmvlan_list` record on a 7.0+
server: the walked free range, when both boundary fields are present. -/
def vlanRecRange (r : VlanRec) : List String :=
  match r.free_start_vlan_id, r.free_end_vlan_id with
  | some startVlanID, some endVlanID =>
    vlanRangeWalk 8 (goAtoi startVlanID).1 (goAtoi endVlanID).1
  | _, _ => []

/-- Response body used to exercise `vlanidfindfree` on a 7.0+ server
with three free ranges, each holding more than 8 free IDs. -/
def vlanThreeRanges : List VlanRec :=
  [⟨none, some "1", some "100"⟩, ⟨none, some "20", some "100"⟩,
   ⟨none, some "40", some "100"⟩]

/-- Join of character-list groups with a separator character, inverse
image of `goSplitCh`. -/
def joinSep (sep : Char) : List (List Char) → List Char
  | [] => []
  | [g] => g
  | g :: gs => g ++ sep :: joinSep sep gs

/-- Target shape of `hexip6toip6Aux` on whole 4-character groups: a
colon before every group except the one at block index 0. -/
def colonJoinAux : Nat → List (List Char) → List Char
  | _, [] => []
  | k, g :: gs => (if k = 0 then [] else [':']) ++ g ++ colonJoinAux (k + 1) gs

/-- Group of the fully-expanded IPv6 colon form: exactly four
hexadecimal digit characters. -/
def isWireGroup (g : List Char) : Prop :=
  g.length = 4 ∧ ∀ c ∈ g, isHexCh c = true

/-! ## Lemmas and claim theorems -/

set_option maxRecDepth 8192 in
theorem decDigits_no_dot : ∀ n : Nat, n < 256 → '.' ∉ decDigits n := by decide

set_option maxRecDepth 8192 in
theorem goAtoi_decStr : ∀ n : Nat, n < 256 → goAtoi (decStr n) = ((n : Int), true) := by
  decide

set_option maxRecDepth 8192 in
theorem hexDigitChar_facts : ∀ d : Nat, d < 16 →
    isHexCh (hexDigitChar d) = true ∧ hexVal (hexDigitChar d) = d := by decide

set_option maxRecDepth 8192 in
theorem parseV4Field_decDigits : ∀ n : Nat, n < 256 → parseV4Field (decDigits n) = some n := by
  decide

theorem goSplitCh_of_not_mem {sep : Char} : ∀ l : List Char, sep ∉ l → goSplitCh sep l = [l] := by
  intro l
  induction l with
  | nil => intro _; rfl
  | cons c cs ih =>
    intro h
    have hc : ¬ c = sep := fun hcs => h (hcs ▸ List.mem_cons_self c cs)
    have hcs : sep ∉ cs := fun hm => h (List.mem_cons_of_mem c hm)
    simp [goSplitCh, hc, ih hcs]

theorem goSplitCh_append {sep : Char} : ∀ (l1 l2 : List Char), sep ∉ l1 →
    goSplitCh sep (l1 ++ sep :: l2) = l1 :: goSplitCh sep l2 := by
  intro l1
  induction l1 with
  | nil =>
    intro l2 _
    simp [goSplitCh]
  | cons c cs ih =>
    intro l2 h
    have hc : ¬ c = sep := fun hcs => h (hcs ▸ List.mem_cons_self c cs)
    have hcs : sep ∉ cs := fun hm => h (List.mem_cons_of_mem c hm)
    simp only [List.cons_append, goSplitCh, if_neg hc, List.append_eq, ih l2 hcs]

theorem shiftRight_le_shiftRight {a b : Nat} (k : Nat) (h : a ≤ b) : a >>> k ≤ b >>> k := by
  simp only [Nat.shiftRight_eq_div_pow]
  exact Nat.div_le_div_right h

theorem longtoip_octet_bounds (n : Nat) :
    (n &&& 0xFF000000) >>> 24 ≤ 255 ∧ (n &&& 0xFF0000) >>> 16 ≤ 255 ∧
    (n &&& 0xFF00) >>> 8 ≤ 255 ∧ n &&& 0xFF ≤ 255 := by
  refine ⟨?_, ?_, ?_, ?_⟩
  · exact le_trans (shiftRight_le_shiftRight 24 (Nat.and_le_right)) (by decide)
  · exact le_trans (shiftRight_le_shiftRight 16 (Nat.and_le_right)) (by decide)
  · exact le_trans (shiftRight_le_shiftRight 8 (Nat.and_le_right)) (by decide)
  · exact Nat.and_le_right

theorem longtoip_data (n : Nat) : (longtoip n).data =
    decDigits ((n &&& 0xFF000000) >>> 24) ++ '.' ::
    (decDigits ((n &&& 0xFF0000) >>> 16) ++ '.' ::
    (decDigits ((n &&& 0xFF00) >>> 8) ++ '.' ::
    decDigits (n &&& 0xFF))) := by
  simp only [longtoip, decStr, String.data_append]
  have hdot : (".").data = ['.'] := rfl
  simp [hdot, List.append_assoc]

theorem goSplit_longtoip (n : Nat) :
    goSplit '.' (longtoip n) =
      [decStr ((n &&& 0xFF000000) >>> 24), decStr ((n &&& 0xFF0000) >>> 16),
       decStr ((n &&& 0xFF00) >>> 8), decStr (n &&& 0xFF)] := by
  obtain ⟨ha, hb, hc, hd⟩ := longtoip_octet_bounds n
  unfold goSplit
  rw [longtoip_data,
    goSplitCh_append _ _ (decDigits_no_dot _ (by omega)),
    goSplitCh_append _ _ (decDigits_no_dot _ (by omega)),
    goSplitCh_append _ _ (decDigits_no_dot _ (by omega)),
    goSplitCh_of_not_mem _ (decDigits_no_dot _ (by omega))]
  rfl

theorem scanHex2_fmtHex02 (v : Nat) (hv : v ≤ 255) (rest : List Char) :
    scanHex2 (fmtHex02 v ++ rest) = some (v, rest) := by
  obtain ⟨h1h, h1v⟩ := hexDigitChar_facts (v / 16) (by omega)
  obtain ⟨h2h, h2v⟩ := hexDigitChar_facts (v % 16) (by omega)
  simp only [fmtHex02, List.cons_append, List.nil_append, scanHex2, h1h, h2h, if_pos,
    h1v, h2v]
  simp only [Option.some.injEq, Prod.mk.injEq, and_true]
  omega

theorem iptohexip_longtoip (n : Nat) :
    iptohexip (longtoip n) =
      ⟨fmtHex02 ((n &&& 0xFF000000) >>> 24) ++ fmtHex02 ((n &&& 0xFF0000) >>> 16) ++
       fmtHex02 ((n &&& 0xFF00) >>> 8) ++ fmtHex02 (n &&& 0xFF)⟩ := by
  obtain ⟨ha, hb, hc, hd⟩ := longtoip_octet_bounds n
  simp only [iptohexip, goSplit_longtoip,
    goAtoi_decStr _ (by omega : (n &&& 0xFF000000) >>> 24 < 256),
    goAtoi_decStr _ (by omega : (n &&& 0xFF0000) >>> 16 < 256),
    goAtoi_decStr _ (by omega : (n &&& 0xFF00) >>> 8 < 256),
    goAtoi_decStr _ (by omega : n &&& 0xFF < 256)]
  rw [if_pos]
  · simp
  · simp only [Bool.and_eq_true, decide_eq_true_eq]
    refine ⟨⟨⟨⟨⟨⟨⟨?_, ?_⟩, ?_⟩, ?_⟩, ?_⟩, ?_⟩, ?_⟩, ?_⟩ <;> omega

theorem hexiptoip_iptohexip_longtoip (n : Nat) :
    hexiptoip (iptohexip (longtoip n)) = longtoip n := by
  obtain ⟨ha, hb, hc, hd⟩ := longtoip_octet_bounds n
  rw [iptohexip_longtoip]
  have hdata : (String.mk (fmtHex02 ((n &&& 0xFF000000) >>> 24) ++
      fmtHex02 ((n &&& 0xFF0000) >>> 16) ++ fmtHex02 ((n &&& 0xFF00) >>> 8) ++
      fmtHex02 (n &&& 0xFF))).data =
      fmtHex02 ((n &&& 0xFF000000) >>> 24) ++ (fmtHex02 ((n &&& 0xFF0000) >>> 16) ++
      (fmtHex02 ((n &&& 0xFF00) >>> 8) ++ fmtHex02 (n &&& 0xFF))) := by
    simp [List.append_assoc]
  have h1 := scanHex2_fmtHex02 ((n &&& 0xFF000000) >>> 24) (by omega)
    (fmtHex02 ((n &&& 0xFF0000) >>> 16) ++ (fmtHex02 ((n &&& 0xFF00) >>> 8) ++
      fmtHex02 (n &&& 0xFF)))
  have h2 := scanHex2_fmtHex02 ((n &&& 0xFF0000) >>> 16) (by omega)
    (fmtHex02 ((n &&& 0xFF00) >>> 8) ++ fmtHex02 (n &&& 0xFF))
  have h3 := scanHex2_fmtHex02 ((n &&& 0xFF00) >>> 8) (by omega) (fmtHex02 (n &&& 0xFF))
  have h4 : scanHex2 (fmtHex02 (n &&& 0xFF)) = some (n &&& 0xFF, []) := by
    have := scanHex2_fmtHex02 (n &&& 0xFF) (by omega) []
    simpa using this
  simp only [hexiptoip, hdata, List.append_assoc, h1, h2, h3, h4]
  rfl

theorem notColon_of_hex {g : List Char} (h : ∀ c ∈ g, isHexCh c = true) : ':' ∉ g := by
  intro hm
  have := h ':' hm
  simp [isHexCh] at this

theorem goSplitCh_joinSep {sep : Char} : ∀ gs : List (List Char), gs ≠ [] →
    (∀ g ∈ gs, sep ∉ g) → goSplitCh sep (joinSep sep gs) = gs := by
  intro gs
  induction gs with
  | nil => intro h _; exact absurd rfl h
  | cons g gs ih =>
    intro _ hmem
    cases gs with
    | nil =>
      exact goSplitCh_of_not_mem g (hmem g (List.mem_cons_self _ _))
    | cons g2 t =>
      have hjoin : joinSep sep (g :: g2 :: t) = g ++ sep :: joinSep sep (g2 :: t) := rfl
      rw [hjoin, goSplitCh_append g _ (hmem g (List.mem_cons_self _ _)),
        ih (by simp) (fun g' hg' => hmem g' (List.mem_cons_of_mem _ hg'))]

theorem pad04_of_length_four {g : List Char} (h : g.length = 4) : pad04 g = g := by
  simp [pad04, h]

theorem hexip6toip6Aux_block (g rest : List Char) (k : Nat) (hg : g.length = 4) :
    hexip6toip6Aux (4 * k) (g ++ rest) =
      (if k = 0 then [] else [':']) ++ g ++ hexip6toip6Aux (4 * k + 4) rest := by
  obtain ⟨x1, x2, x3, x4, rfl⟩ : ∃ x1 x2 x3 x4, g = [x1, x2, x3, x4] := by
    rcases g with _ | ⟨x1, g⟩; · simp at hg
    rcases g with _ | ⟨x2, g⟩; · simp at hg
    rcases g with _ | ⟨x3, g⟩; · simp at hg
    rcases g with _ | ⟨x4, g⟩; · simp at hg
    have : g = [] := by
      simpa using hg
    exact ⟨x1, x2, x3, x4, by rw [this]⟩
  have h2 : 4 * k + 1 = 0 ∨ (4 * k + 1) % 4 ≠ 0 := by omega
  have h3 : 4 * k + 2 = 0 ∨ (4 * k + 2) % 4 ≠ 0 := by omega
  have h4 : 4 * k + 3 = 0 ∨ (4 * k + 3) % 4 ≠ 0 := by omega
  by_cases hk : k = 0
  · subst hk
    have h1 : (4 * 0 = 0 ∨ (4 * 0) % 4 ≠ 0) := by omega
    simp only [List.cons_append, List.nil_append, hexip6toip6Aux, if_pos h1, if_pos h2,
      if_pos h3, if_pos h4]
    norm_num
  · have h1 : ¬ (4 * k = 0 ∨ (4 * k) % 4 ≠ 0) := by omega
    simp only [List.cons_append, List.nil_append, hexip6toip6Aux, if_neg h1, if_pos h2,
      if_pos h3, if_pos h4, if_neg hk]
    have : 4 * k + 3 + 1 = 4 * k + 4 := by omega
    rw [this]
    simp

theorem hexip6toip6Aux_flatten : ∀ (gs : List (List Char)) (k : Nat),
    (∀ g ∈ gs, g.length = 4) →
    hexip6toip6Aux (4 * k) gs.flatten = colonJoinAux k gs := by
  intro gs
  induction gs with
  | nil => intro k _; rfl
  | cons g gs ih =>
    intro k hlen
    have hflat : (g :: gs).flatten = g ++ gs.flatten := rfl
    rw [hflat, hexip6toip6Aux_block g gs.flatten k (hlen g (List.mem_cons_self _ _)),
      show 4 * k + 4 = 4 * (k + 1) by ring,
      ih (k + 1) (fun g' hg' => hlen g' (List.mem_cons_of_mem _ hg'))]
    rfl

theorem colonJoinAux_pos : ∀ (gs : List (List Char)) (k : Nat), k ≠ 0 →
    colonJoinAux k gs = gs.flatMap (fun g => ':' :: g) := by
  intro gs
  induction gs with
  | nil => intro k _; rfl
  | cons g gs ih =>
    intro k hk
    simp only [colonJoinAux, if_neg hk, List.flatMap_cons, ih (k + 1) (by omega)]
    simp

theorem joinSep_eq_flatColon : ∀ (g : List Char) (gs : List (List Char)),
    joinSep ':' (g :: gs) = g ++ gs.flatMap (fun g' => ':' :: g') := by
  intro g gs
  induction gs generalizing g with
  | nil => simp [joinSep]
  | cons g2 t ih =>
    have hjoin : joinSep ':' (g :: g2 :: t) = g ++ ':' :: joinSep ':' (g2 :: t) := rfl
    rw [hjoin, ih g2]
    simp

theorem colonJoinAux_zero (gs : List (List Char)) :
    colonJoinAux 0 gs = joinSep ':' gs := by
  cases gs with
  | nil => rfl
  | cons g t =>
    simp only [colonJoinAux, if_pos rfl, List.nil_append, joinSep_eq_flatColon]
    cases t with
    | nil => simp [colonJoinAux]
    | cons g2 t2 =>
      rw [colonJoinAux_pos _ 1 (by omega)]
      simp

theorem hexip6toip6_flatten (gs : List (List Char)) (hlen : ∀ g ∈ gs, g.length = 4) :
    hexip6toip6 ⟨gs.flatten⟩ = ⟨joinSep ':' gs⟩ := by
  show (⟨hexip6toip6Aux 0 gs.flatten⟩ : String) = ⟨joinSep ':' gs⟩
  rw [show (0 : Nat) = 4 * 0 by rfl, hexip6toip6Aux_flatten gs 0 hlen, colonJoinAux_zero]

theorem ip6tohexip6_joinSep (g1 g2 g3 g4 g5 g6 g7 g8 : List Char)
    (h1 : isWireGroup g1) (h2 : isWireGroup g2) (h3 : isWireGroup g3)
    (h4 : isWireGroup g4) (h5 : isWireGroup g5) (h6 : isWireGroup g6)
    (h7 : isWireGroup g7) (h8 : isWireGroup g8) :
    ip6tohexip6 ⟨joinSep ':' [g1, g2, g3, g4, g5, g6, g7, g8]⟩ =
      ⟨[g1, g2, g3, g4, g5, g6, g7, g8].flatten⟩ := by
  have hsplit : goSplitCh ':' (joinSep ':' [g1, g2, g3, g4, g5, g6, g7, g8]) =
      [g1, g2, g3, g4, g5, g6, g7, g8] := by
    refine goSplitCh_joinSep _ (by simp) ?_
    intro g hg
    simp only [List.mem_cons, List.not_mem_nil, or_false] at hg
    rcases hg with rfl | rfl | rfl | rfl | rfl | rfl | rfl | rfl
    · exact notColon_of_hex h1.2
    · exact notColon_of_hex h2.2
    · exact notColon_of_hex h3.2
    · exact notColon_of_hex h4.2
    · exact notColon_of_hex h5.2
    · exact notColon_of_hex h6.2
    · exact notColon_of_hex h7.2
    · exact notColon_of_hex h8.2
  simp only [ip6tohexip6, hsplit, pad04_of_length_four h1.1, pad04_of_length_four h2.1,
    pad04_of_length_four h3.1, pad04_of_length_four h4.1, pad04_of_length_four h5.1,
    pad04_of_length_four h6.1, pad04_of_length_four h7.1, pad04_of_length_four h8.1]
  congr 1
  simp [List.append_assoc]

/-- C8: round trips of the address codec: for every valid (canonical
dotted-quad, the image of `longtoip`) IPv4 string `s`,
`hexiptoip (iptohexip s) = s`; and for the fully-expanded IPv6 colon
form (8 groups of exactly 4 hexadecimal digits), converting to the wire
hex form with `ip6tohexip6` (which zero-pads every group to 4 digits
via `%04s`) and back with `hexip6toip6` returns the original string. -/
theorem claim_C8_codec_roundtrip :
    (∀ s : String, (∃ n : Nat, n < 4294967296 ∧ s = longtoip n) →
      hexiptoip (iptohexip s) = s) ∧
    (∀ g1 g2 g3 g4 g5 g6 g7 g8 : List Char,
      isWireGroup g1 → isWireGroup g2 → isWireGroup g3 → isWireGroup g4 →
      isWireGroup g5 → isWireGroup g6 → isWireGroup g7 → isWireGroup g8 →
      hexip6toip6 (ip6tohexip6 ⟨joinSep ':' [g1, g2, g3, g4, g5, g6, g7, g8]⟩) =
        ⟨joinSep ':' [g1, g2, g3, g4, g5, g6, g7, g8]⟩) := by
  constructor
  · rintro s ⟨n, _, rfl⟩
    exact hexiptoip_iptohexip_longtoip n
  · intro g1 g2 g3 g4 g5 g6 g7 g8 h1 h2 h3 h4 h5 h6 h7 h8
    rw [ip6tohexip6_joinSep g1 g2 g3 g4 g5 g6 g7 g8 h1 h2 h3 h4 h5 h6 h7 h8]
    refine hexip6toip6_flatten _ ?_
    intro g hg
    simp only [List.mem_cons, List.not_mem_nil, or_false] at hg
    rcases hg with rfl | rfl | rfl | rfl | rfl | rfl | rfl | rfl
    exacts [h1.1, h2.1, h3.1, h4.1, h5.1, h6.1, h7.1, h8.1]

theorem claim_C8_codec_roundtrip_witness :
    hexiptoip (iptohexip "10.0.0.1") = "10.0.0.1" ∧
    hexip6toip6 (ip6tohexip6 "2001:0db8:85a3:0000:0000:8a2e:0370:7334") =
      "2001:0db8:85a3:0000:0000:8a2e:0370:7334" := by
  constructor
  · exact claim_C8_codec_roundtrip.1 "10.0.0.1" ⟨167772161, by norm_num, by decide⟩
  · have h := claim_C8_codec_roundtrip.2
      ['2', '0', '0', '1'] ['0', 'd', 'b', '8'] ['8', '5', 'a', '3'] ['0', '0', '0', '0']
      ['0', '0', '0', '0'] ['8', 'a', '2', 'e'] ['0', '3', '7', '0'] ['7', '3', '3', '4']
      (by constructor <;> decide) (by constructor <;> decide) (by constructor <;> decide)
      (by constructor <;> decide) (by constructor <;> decide) (by constructor <;> decide)
      (by constructor <;> decide) (by constructor <;> decide)
    have hs : (⟨joinSep ':' [['2', '0', '0', '1'], ['0', 'd', 'b', '8'], ['8', '5', 'a', '3'],
        ['0', '0', '0', '0'], ['0', '0', '0', '0'], ['8', 'a', '2', 'e'], ['0', '3', '7', '0'],
        ['7', '3', '3', '4']]⟩ : String) = "2001:0db8:85a3:0000:0000:8a2e:0370:7334" := rfl
    rw [hs] at h
    exact h

theorem vlanRangeWalk_eq_range : ∀ (fuel : Nat) (s e : Int),
    vlanRangeWalk fuel s e =
      (List.range (min fuel (e - s).toNat)).map (fun i : Nat => goItoa (s + (i : Int))) := by
  intro fuel
  induction fuel with
  | zero => intro s e; simp [vlanRangeWalk]
  | succ fuel ih =>
    intro s e
    by_cases h : s < e
    · have hmin : min (fuel + 1) (e - s).toNat = min fuel (e - (s + 1)).toNat + 1 := by
        omega
      rw [vlanRangeWalk, if_pos h, ih (s + 1) e, hmin, List.range_succ_eq_map]
      simp only [List.map_cons, List.map_map, Nat.cast_zero, add_zero]
      congr 1
      apply List.map_congr_left
      intro i _
      simp only [Function.comp_apply, Nat.succ_eq_add_one]
      congr 1
      push_cast
      ring
    · have hmin : min (fuel + 1) (e - s).toNat = 0 := by omega
      rw [vlanRangeWalk, if_neg h, hmin]
      simp

theorem vlanLoop_model : ∀ (v : Int) (bufs : List VlanRec) (acc : List String),
    vlanLoop v bufs acc =
      acc ++ (if v < 700 then bufs.filterMap (fun r => r.vlmvlan_vlan_id)
              else bufs.flatMap vlanRecRange) := by
  intro v bufs
  induction bufs with
  | nil => intro acc; simp [vlanLoop]
  | cons r rest ih =>
    intro acc
    by_cases hv : v < 700
    · cases hvn : r.vlmvlan_vlan_id with
      | some vn =>
        simp [vlanLoop, hv, hvn, ih, List.filterMap_cons]
      | none =>
        simp [vlanLoop, hv, hvn, ih, List.filterMap_cons]
    · cases hs : r.free_start_vlan_id with
      | some sv =>
        cases he : r.free_end_vlan_id with
        | some ev =>
          simp [vlanLoop, hv, hs, he, ih, vlanRecRange, List.flatMap_cons]
        | none =>
          simp [vlanLoop, hv, hs, he, ih, vlanRecRange, List.flatMap_cons]
      | none =>
        simp [vlanLoop, hv, hs, ih, vlanRecRange, List.flatMap_cons]

theorem versionConcatAux_eq_foldl : ∀ (i : Nat) (l : List String) (v : Int),
    versionConcatAux i l v =
      (l.take i).foldl (fun a p => a * 10 + (if (goAtoi p).2 then (goAtoi p).1 else 0)) v := by
  intro i
  induction i with
  | zero => intro l v; simp [versionConcatAux]
  | succ i ih =>
    intro l v
    cases l with
    | nil => simp [versionConcatAux]
    | cons p ps => simp [versionConcatAux, ih]

theorem sizetoprefixlengthAux_le (pl : Nat) : ∀ s : Int, sizetoprefixlengthAux pl s ≤ pl := by
  induction pl with
  | zero => intro s; simp [sizetoprefixlengthAux]
  | succ pl ih =>
    intro s
    simp only [sizetoprefixlengthAux]
    split
    · exact le_trans (ih _) (Nat.le_succ _)
    · exact le_refl _

theorem pow_sub_sizetoprefixlengthAux_le (pl : Nat) :
    ∀ s : Int, 1 ≤ s → (2 : Int) ^ (pl - sizetoprefixlengthAux pl s) ≤ s := by
  induction pl with
  | zero => intro s hs; simpa [sizetoprefixlengthAux] using hs
  | succ pl ih =>
    intro s hs
    by_cases h : 1 < s
    · have h2 : (0 : Int) ≤ s := by omega
      have htd : s.tdiv 2 = s / 2 := Int.tdiv_eq_ediv h2 (by norm_num)
      have h1 : 1 ≤ s.tdiv 2 := by rw [htd]; omega
      have hmul : s.tdiv 2 * 2 ≤ s := by rw [htd]; omega
      have hr := sizetoprefixlengthAux_le pl (s.tdiv 2)
      have ih' := ih (s.tdiv 2) h1
      simp only [sizetoprefixlengthAux, if_pos h]
      have hsub : pl + 1 - sizetoprefixlengthAux pl (s.tdiv 2) =
          (pl - sizetoprefixlengthAux pl (s.tdiv 2)) + 1 := by omega
      rw [hsub, pow_succ]
      have hstep : (2 : Int) ^ (pl - sizetoprefixlengthAux pl (s.tdiv 2)) * 2 ≤ s.tdiv 2 * 2 :=
        mul_le_mul_of_nonneg_right ih' (by norm_num)
      exact le_trans hstep hmul
    · simp only [sizetoprefixlengthAux, if_neg h, Nat.sub_self, pow_zero]
      exact hs

theorem prefix_roundtrip_ball : ∀ m : Nat, m < 33 →
    sizetoprefixlength (prefixlengthtosize (m : Int)) = (m : Int) := by decide

/-- C9: CIDR prefix math: `sizetoprefixlength (prefixlengthtosize n) = n`
for every `n` in `[0, 32]`, and for every positive size `sz` that is not
a power of two, `prefixlengthtosize (sizetoprefixlength sz) ≤ sz` (the
size rounds down to the next smaller power-of-two block). -/
theorem claim_C9_prefix_math :
    (∀ n : Int, 0 ≤ n → n ≤ 32 → sizetoprefixlength (prefixlengthtosize n) = n) ∧
    (∀ sz : Int, 0 < sz → (¬ ∃ k : Nat, sz = 2 ^ k) →
      prefixlengthtosize (sizetoprefixlength sz) ≤ sz) := by
  constructor
  · intro n h0 h32
    have hm : n = ((n.toNat : Nat) : Int) := (Int.toNat_of_nonneg h0).symm
    rw [hm]
    exact prefix_roundtrip_ball n.toNat (by omega)
  · intro sz hpos _
    have hr := sizetoprefixlengthAux_le 32 sz
    have hpow := pow_sub_sizetoprefixlengthAux_le 32 sz (by omega)
    unfold prefixlengthtosize sizetoprefixlength
    rw [if_pos (by constructor <;> omega)]
    have heq : ((32 : Int) - (sizetoprefixlengthAux 32 sz : Int)).toNat =
        32 - sizetoprefixlengthAux 32 sz := by omega
    rw [heq]
    exact hpow

theorem claim_C9_prefix_math_witness :
    sizetoprefixlength (prefixlengthtosize 24) = 24 ∧
    prefixlengthtosize (sizetoprefixlength 3) ≤ 3 := by
  constructor
  · exact claim_C9_prefix_math.1 24 (by norm_num) (by norm_num)
  · refine claim_C9_prefix_math.2 3 (by norm_num) ?_
    rintro ⟨k, hk⟩
    match k with
    | 0 => norm_num at hk
    | 1 => norm_num at hk
    | (k + 2) =>
      have h1 : (0 : Int) < 2 ^ k := pow_pos (by norm_num) k
      rw [pow_succ, pow_succ] at hk
      nlinarith

/-- C5: the address codec does NOT uniformly fail closed: `iptolong`
performs no octet range validation, so an out-of-range octet wraps
through `uint32` arithmetic into a non-sentinel partial value rather
than invalidating the conversion, and `ip6toptr` never returns the
empty-string sentinel its own documentation comment promises — a
malformed input is reversed verbatim into a `.ip6.arpa` name.  This
theorem evaluates both functions at the failing inputs. -/
theorem claim_C5_fail_closed_violation :
    iptolong "1.2.3.300" = 16909356 ∧ iptolong "1.2.3.300" ≠ 0 ∧
    iptolong "1.2.3.abc" = 16909056 ∧ iptolong "1.2.3.abc" ≠ 0 ∧
    ip6toptr "zz" = "z.z.ip6.arpa" ∧ ip6toptr "zz" ≠ "" := by
  refine ⟨rfl, by decide, rfl, by decide, rfl, by decide⟩

theorem take_append_replicate {α : Type} (xs : List α) (m : Nat) (c : α) (k : Nat)
    (h1 : xs.length ≤ k) (h2 : k ≤ xs.length + m) :
    List.take k (xs ++ List.replicate m c) = xs ++ List.replicate (k - xs.length) c := by
  rw [List.take_append_eq_append_take, List.take_of_length_le h1, List.take_replicate]
  congr 2
  omega

theorem rangeAddrsUp_cons {a e : Nat} (hae : a ≤ e) (hamax : a ≠ 4294967295)
    (_he : e < 4294967296) :
    rangeAddrsUp a e = longtoip a :: rangeAddrsUp (a + 1) e := by
  unfold rangeAddrsUp
  have h1 : e + 1 - a = (e - a) + 1 := by omega
  have h2 : e + 1 - (a + 1) = e - a := by omega
  rw [h1, h2, List.range'_succ]
  by_cases hc : e = 4294967295
  · rw [if_pos ⟨hae, hc⟩, if_pos ⟨by omega, hc⟩]
    simp
  · rw [if_neg (by tauto), if_neg (by tauto)]
    simp

theorem rangeAddrsUp_length_pos {a e : Nat} (hae : a ≤ e) :
    0 < (rangeAddrsUp a e).length := by
  unfold rangeAddrsUp
  simp only [List.length_append, List.length_map, List.length_range']
  omega

theorem rangeAddrsUp_of_gt {a e : Nat} (hae : ¬ a ≤ e) : rangeAddrsUp a e = [] := by
  unfold rangeAddrsUp
  rw [show e + 1 - a = 0 by omega]
  simp [hae]

theorem walkStart_eq (e : Nat) (he : e < 4294967296) :
    ∀ (fuel : Nat) (cur : GoAddr) (acc : List String),
      (∀ a, cur = GoAddr.v4 a → a < 4294967296) →
      acc.length ≤ 32 → fuel = 33 - acc.length →
      walkStart e fuel cur acc =
        (List.take 32 (acc ++ curModelUp e cur),
         decide (32 < acc.length + (curModelUp e cur).length)) := by
  intro fuel
  induction fuel with
  | zero => intro cur acc _ hlen hfuel; omega
  | succ fuel ih =>
    intro cur acc hcur hlen hfuel
    cases cur with
    | invalid lo =>
      by_cases h32 : 32 ≤ acc.length
      · have hlen' : acc.length = 32 := by omega
        simp only [walkStart, addrLE, curModelUp, if_true, if_pos h32]
        simp only [Prod.mk.injEq]
        constructor
        · rw [take_append_replicate acc 33 _ 32 (by omega) (by omega)]
          rw [show 32 - acc.length = 0 by omega]
          simp
        · symm
          rw [decide_eq_true_eq]
          simp only [List.length_replicate]
          omega
      · simp only [walkStart, addrLE, curModelUp, if_true, if_neg h32, addrNext, addrString]
        rw [ih (.invalid (lo + 1)) (acc ++ ["invalid IP"]) (by intro a ha; cases ha)
          (by simp only [List.length_append, List.length_cons, List.length_nil]; omega)
          (by simp only [List.length_append, List.length_cons, List.length_nil]; omega)]
        simp only [curModelUp, Prod.mk.injEq]
        constructor
        · rw [take_append_replicate _ 33 _ 32
              (by simp only [List.length_append, List.length_cons, List.length_nil]; omega)
              (by simp only [List.length_append, List.length_cons, List.length_nil]; omega),
            take_append_replicate acc 33 _ 32 (by omega) (by omega)]
          rw [List.append_assoc]
          rw [show (["invalid IP"] ++
              List.replicate (32 - (acc ++ ["invalid IP"]).length) "invalid IP") =
              List.replicate (32 - acc.length) "invalid IP" by
            simp only [List.singleton_append, List.length_append, List.length_cons,
              List.length_nil]
            rw [show 32 - acc.length = (32 - (acc.length + 1)) + 1 by omega]
            rfl]
        · rw [decide_eq_decide]
          simp only [List.length_append, List.length_cons, List.length_nil,
            List.length_replicate]
          omega
    | v4 a =>
      have ha := hcur a rfl
      by_cases hae : a ≤ e
      · by_cases h32 : 32 ≤ acc.length
        · simp only [walkStart, addrLE, curModelUp, decide_eq_true_eq, if_pos hae,
            if_pos h32]
          simp only [Prod.mk.injEq]
          constructor
          · rw [List.take_append_of_le_length (by omega), List.take_of_length_le (by omega)]
          · symm
            rw [decide_eq_true_eq]
            have := rangeAddrsUp_length_pos hae
            omega
        · have hlt : acc.length < 32 := by omega
          by_cases hamax : a = 4294967295
          · have he' : e = 4294967295 := by omega
            have hmodel : rangeAddrsUp a e = longtoip a :: List.replicate 33 "invalid IP" := by
              unfold rangeAddrsUp
              rw [show e + 1 - a = 1 by omega]
              simp [hamax, he', List.range'_one]
            simp only [walkStart, addrLE, decide_eq_true_eq, if_pos hae, if_neg h32,
              addrNext, if_pos hamax, addrString]
            rw [ih (.invalid 0) (acc ++ [longtoip a]) (by intro b hb; cases hb)
              (by simp only [List.length_append, List.length_cons, List.length_nil]; omega)
              (by simp only [List.length_append, List.length_cons, List.length_nil]; omega)]
            simp only [curModelUp, hmodel, Prod.mk.injEq]
            constructor
            · rw [List.append_assoc]
              rfl
            · rw [decide_eq_decide]
              simp only [List.length_append, List.length_cons, List.length_nil,
                List.length_replicate]
              try omega
          · have hmodel := rangeAddrsUp_cons hae hamax he
            simp only [walkStart, addrLE, decide_eq_true_eq, if_pos hae, if_neg h32,
              addrNext, if_neg hamax, addrString]
            rw [ih (.v4 (a + 1)) (acc ++ [longtoip a])
              (by intro b hb; cases hb; omega)
              (by simp only [List.length_append, List.length_cons, List.length_nil]; omega)
              (by simp only [List.length_append, List.length_cons, List.length_nil]; omega)]
            simp only [curModelUp, hmodel, Prod.mk.injEq]
            constructor
            · rw [List.append_assoc]
              rfl
            · rw [decide_eq_decide]
              simp only [List.length_append, List.length_cons, List.length_nil]
              try omega
      · simp only [walkStart, addrLE, curModelUp, decide_eq_true_eq, if_neg hae,
          rangeAddrsUp_of_gt hae]
        simp only [Prod.mk.injEq, List.append_nil]
        constructor
        · rw [List.take_of_length_le (by omega)]
        · symm
          rw [decide_eq_false_iff_not]
          simp only [List.length_nil]
          omega

theorem parseV4Field_le {l : List Char} {v : Nat} (h : parseV4Field l = some v) :
    v ≤ 255 := by
  unfold parseV4Field at h
  repeat' split at h
  all_goals simp_all

theorem goParseAddr_lt {s : String} {v : Nat} (h : goParseAddr s = some v) :
    v < 4294967296 := by
  unfold goParseAddr at h
  split at h
  · rename_i a b c d heq
    injection h with h'
    subst h'
    have ma : some a ∈ (goSplitCh '.' s.data).map parseV4Field := by rw [heq]; simp
    have mb : some b ∈ (goSplitCh '.' s.data).map parseV4Field := by rw [heq]; simp
    have mc : some c ∈ (goSplitCh '.' s.data).map parseV4Field := by rw [heq]; simp
    have md : some d ∈ (goSplitCh '.' s.data).map parseV4Field := by rw [heq]; simp
    obtain ⟨la, _, hla⟩ := List.mem_map.1 ma
    obtain ⟨lb, _, hlb⟩ := List.mem_map.1 mb
    obtain ⟨lc, _, hlc⟩ := List.mem_map.1 mc
    obtain ⟨ld, _, hld⟩ := List.mem_map.1 md
    have h1 := parseV4Field_le hla
    have h2 := parseV4Field_le hlb
    have h3 := parseV4Field_le hlc
    have h4 := parseV4Field_le hld
    omega
  · exact absurd h (by simp)

theorem parseFreeRange_lt {r : FreeRangeRec} {s e : Nat}
    (h : parseFreeRange r = some (s, e)) : s < 4294967296 ∧ e < 4294967296 := by
  unfold parseFreeRange at h
  repeat' split at h
  all_goals cases h
  exact ⟨goParseAddr_lt (by assumption), goParseAddr_lt (by assumption)⟩

theorem findfreeStartLoop_eq : ∀ (bufs : List FreeRangeRec) (acc : List String),
    acc.length ≤ 32 →
    findfreeStartLoop bufs acc =
      List.take 32 (acc ++
        (bufs.filterMap parseFreeRange).flatMap (fun p => rangeAddrsUp p.1 p.2)) := by
  intro bufs
  induction bufs with
  | nil =>
    intro acc h
    simp [findfreeStartLoop, List.take_of_length_le h]
  | cons r rest ih =>
    intro acc hlen
    cases hp : parseFreeRange r with
    | none =>
      simp only [findfreeStartLoop, hp, List.filterMap_cons, ih acc hlen]
    | some p =>
      obtain ⟨s, e⟩ := p
      obtain ⟨hs, he⟩ := parseFreeRange_lt hp
      simp only [findfreeStartLoop, hp]
      rw [walkStart_eq e he (33 - acc.length) (.v4 s) acc
        (by intro b hb; cases hb; omega) hlen rfl]
      have hmodel : curModelUp e (.v4 s) = rangeAddrsUp s e := rfl
      rw [hmodel]
      have hflat : ((r :: rest).filterMap parseFreeRange).flatMap
          (fun p => rangeAddrsUp p.1 p.2) =
          rangeAddrsUp s e ++
            (rest.filterMap parseFreeRange).flatMap (fun p => rangeAddrsUp p.1 p.2) := by
        simp [List.filterMap_cons, hp]
      by_cases hP : 32 < acc.length + (rangeAddrsUp s e).length
      · rw [decide_eq_true hP]
        show List.take 32 (acc ++ rangeAddrsUp s e) = _
        have hlen2 : 32 ≤ (acc ++ rangeAddrsUp s e).length := by
          simp only [List.length_append]; omega
        rw [hflat, ← List.append_assoc, List.take_append_of_le_length hlen2]
      · rw [decide_eq_false hP]
        show findfreeStartLoop rest (List.take 32 (acc ++ rangeAddrsUp s e)) = _
        have htake : List.take 32 (acc ++ rangeAddrsUp s e) = acc ++ rangeAddrsUp s e :=
          List.take_of_length_le (by simp only [List.length_append]; omega)
        rw [htake, ih (acc ++ rangeAddrsUp s e) (by simp only [List.length_append]; omega)]
        rw [hflat, ← List.append_assoc]

/-- C1: for FindFreeAddress (`ipaddressfindfree`) with strategy
`"start"`: given the server's decoded free-range list, the result is
exactly the first 32 elements of the concatenation, range by range in
response order, of the ascending one-address-at-a-time enumeration of
each decoded range — so candidates are appended in ascending order
within each range and the function stops as soon as 32 candidates are
collected, without continuing into later ranges; in particular a
response with the single free range `{start: "0A000001", end:
"0A0000FF"}` yields exactly `["10.0.0.1", "10.0.0.2", ...]`, 32 entries
in ascending order. -/
theorem claim_C1_findfree_start_enumeration :
    (∀ bufs : List FreeRangeRec,
      ipaddressfindfreeStart bufs =
        List.take 32 ((bufs.filterMap parseFreeRange).flatMap
          (fun p => rangeAddrsUp p.1 p.2))) ∧
    ipaddressfindfreeStart [⟨some "0A000001", some "0A0000FF"⟩] =
      (List.range' 1 32).map (fun d => "10.0.0." ++ decStr d) := by
  constructor
  · intro bufs
    have h := findfreeStartLoop_eq bufs [] (by simp)
    simpa [ipaddressfindfreeStart] using h
  · decide

theorem mem_rangeAddrsUp {x : String} {s e : Nat} (h : x ∈ rangeAddrsUp s e) :
    x = "invalid IP" ∨ ∃ n, s ≤ n ∧ n ≤ e ∧ x = longtoip n := by
  unfold rangeAddrsUp at h
  rcases List.mem_append.1 h with h | h
  · obtain ⟨n, hn, rfl⟩ := List.mem_map.1 h
    right
    rw [List.mem_range'] at hn
    obtain ⟨i, hi, rfl⟩ := hn
    exact ⟨s + 1 * i, by omega, by omega, rfl⟩
  · split at h
    · exact Or.inl (List.eq_of_mem_replicate h)
    · exact absurd h (List.not_mem_nil x)

theorem ipaddressfindfreeStart_mem {bufs : List FreeRangeRec} {x : String}
    (hx : x ∈ ipaddressfindfreeStart bufs) :
    x = "invalid IP" ∨
    ∃ r ∈ bufs, ∃ s e n, parseFreeRange r = some (s, e) ∧ s ≤ n ∧ n ≤ e ∧
      x = longtoip n := by
  unfold ipaddressfindfreeStart at hx
  rw [findfreeStartLoop_eq bufs [] (by simp)] at hx
  simp only [List.nil_append] at hx
  have hx' := List.take_subset _ _ hx
  obtain ⟨p, hp, hxp⟩ := List.mem_flatMap.1 hx'
  obtain ⟨r, hr, hpr⟩ := List.mem_filterMap.1 hp
  rcases mem_rangeAddrsUp hxp with h | ⟨n, h1, h2, rfl⟩
  · exact Or.inl h
  · exact Or.inr ⟨r, hr, p.1, p.2, n, hpr, h1, h2, rfl⟩

theorem walkEnd_mem (s e : Nat) : ∀ (fuel : Nat) (cur : GoAddr) (acc : List String),
    (∀ a, cur = GoAddr.v4 a → a ≤ e) →
    ∀ x ∈ (walkEnd s fuel cur acc).1,
      x ∈ acc ∨ ∃ n, s ≤ n ∧ n ≤ e ∧ x = longtoip n := by
  intro fuel
  induction fuel with
  | zero => intro cur acc _ x hx; exact Or.inl hx
  | succ fuel ih =>
    intro cur acc hcur x hx
    cases cur with
    | invalid lo =>
      simp only [walkEnd, addrGE] at hx
      exact Or.inl hx
    | v4 a =>
      have ha := hcur a rfl
      by_cases hge : s ≤ a
      · simp only [walkEnd, addrGE, decide_eq_true_eq, if_pos hge] at hx
        by_cases h32 : 32 ≤ acc.length
        · rw [if_pos h32] at hx
          exact Or.inl hx
        · rw [if_neg h32] at hx
          have step := ih (addrPrev (.v4 a)) (acc ++ [addrString (.v4 a)])
            (by
              intro b hb
              by_cases ha0 : a = 0
              · simp [addrPrev, ha0] at hb
              · simp [addrPrev, ha0] at hb
                omega) x hx
          rcases step with hmem | hex
          · rcases List.mem_append.1 hmem with h | h
            · exact Or.inl h
            · right
              refine ⟨a, hge, ha, ?_⟩
              simpa [addrString] using h
          · exact Or.inr hex
      · simp only [walkEnd, addrGE, decide_eq_true_eq, if_neg hge] at hx
        exact Or.inl hx

theorem findfreeEndLoop_mem : ∀ (bufs : List FreeRangeRec) (acc : List String) (x : String),
    x ∈ findfreeEndLoop bufs acc →
    x ∈ acc ∨ ∃ r ∈ bufs, ∃ s e n, parseFreeRange r = some (s, e) ∧ s ≤ n ∧ n ≤ e ∧
      x = longtoip n := by
  intro bufs
  induction bufs with
  | nil => intro acc x hx; exact Or.inl hx
  | cons r rest ih =>
    intro acc x hx
    cases hp : parseFreeRange r with
    | none =>
      simp only [findfreeEndLoop, hp] at hx
      rcases ih acc x hx with h | ⟨r', hr', rest'⟩
      · exact Or.inl h
      · exact Or.inr ⟨r', List.mem_cons_of_mem r hr', rest'⟩
    | some p =>
      obtain ⟨s, e⟩ := p
      simp only [findfreeEndLoop, hp] at hx
      rcases hw : walkEnd s (33 - acc.length) (GoAddr.v4 e) acc with ⟨acc', flag⟩
      rw [hw] at hx
      have hacc' : ∀ y ∈ acc', y ∈ acc ∨ ∃ n, s ≤ n ∧ n ≤ e ∧ y = longtoip n := by
        intro y hy
        exact walkEnd_mem s e (33 - acc.length) (.v4 e) acc
          (by intro b hb; cases hb; omega) y (by rw [hw]; exact hy)
      cases flag with
      | true =>
        have hx' : x ∈ acc' := hx
        rcases hacc' x hx' with h | ⟨n, h1, h2, rfl⟩
        · exact Or.inl h
        · exact Or.inr ⟨r, List.mem_cons_self r rest, s, e, n, hp, h1, h2, rfl⟩
      | false =>
        have hx' : x ∈ findfreeEndLoop rest acc' := hx
        rcases ih acc' x hx' with h | ⟨r', hr', rest'⟩
        · rcases hacc' x h with h0 | ⟨n, h1, h2, rfl⟩
          · exact Or.inl h0
          · exact Or.inr ⟨r, List.mem_cons_self r rest, s, e, n, hp, h1, h2, rfl⟩
        · exact Or.inr ⟨r', List.mem_cons_of_mem r hr', rest'⟩

/-- Response body used by the C10 witness: one free range of three
addresses. -/
def singletonFilterBufs : List FreeRangeRec :=
  [⟨some "0A000001", some "0A000003"⟩]

/-- C10: every query `ipaddressfindfree` sends for strategies `"start"`
and `"end"` carries the filter `free_start_ip_addr !=
free_end_ip_addr` at the head of its WHERE clause, so a free range of
exactly one address is excluded from the response; and every candidate
either is the `"invalid IP"` artifact of the top-address overflow or
lies inside some response range — hence, when every response range
satisfies the filter (start ≠ end, as the server guarantees under that
WHERE clause), every returned address comes from a multi-address range
and the sole address of a singleton free range can never appear. -/
theorem claim_C10_singleton_range_filter :
    (∀ subnetID poolID : String, ∃ rest : String,
      ipFreeWhereClause subnetID poolID =
        "free_start_ip_addr != free_end_ip_addr" ++ rest) ∧
    (∀ subnetID poolID method : String,
      ("WHERE", ipFreeWhereClause subnetID poolID) ∈
        ipFreeAddressParams subnetID poolID method) ∧
    (∀ bufs : List FreeRangeRec,
      (∀ r ∈ bufs, ∀ s e : Nat, parseFreeRange r = some (s, e) → s ≠ e) →
      ∀ x ∈ ipaddressfindfreeStart bufs ++ ipaddressfindfreeEnd bufs,
        x = "invalid IP" ∨
        ∃ r ∈ bufs, ∃ s e n, parseFreeRange r = some (s, e) ∧ s ≠ e ∧ s ≤ n ∧ n ≤ e ∧
          x = longtoip n) := by
  refine ⟨?_, ?_, ?_⟩
  · intro subnetID poolID
    exact ⟨" AND subnet_id=" ++ (subnetID ++
      (if 0 < poolID.length then " AND pool_id = " ++ poolID else "")), rfl⟩
  · intro subnetID poolID method
    exact List.mem_cons_self _ _
  · intro bufs hsing x hx
    rcases List.mem_append.1 hx with h | h
    · rcases ipaddressfindfreeStart_mem h with h1 | ⟨r, hr, s, e, n, hp, h1, h2, rfl⟩
      · exact Or.inl h1
      · exact Or.inr ⟨r, hr, s, e, n, hp, hsing r hr s e hp, h1, h2, rfl⟩
    · have hmem := findfreeEndLoop_mem bufs [] x h
      rcases hmem with h0 | ⟨r, hr, s, e, n, hp, h1, h2, rfl⟩
      · exact absurd h0 (List.not_mem_nil x)
      · exact Or.inr ⟨r, hr, s, e, n, hp, hsing r hr s e hp, h1, h2, rfl⟩

theorem claim_C10_singleton_range_filter_witness :
    "10.0.0.2" = "invalid IP" ∨
    ∃ r ∈ singletonFilterBufs, ∃ s e n, parseFreeRange r = some (s, e) ∧ s ≠ e ∧
      s ≤ n ∧ n ≤ e ∧ "10.0.0.2" = longtoip n := by
  refine claim_C10_singleton_range_filter.2.2 singletonFilterBufs ?_ "10.0.0.2" ?_
  · intro r hr s e hp
    simp only [singletonFilterBufs, List.mem_singleton] at hr
    subst hr
    rw [show parseFreeRange ⟨some "0A000001", some "0A000003"⟩ =
        some (167772161, 167772163) from rfl] at hp
    rw [Option.some.injEq, Prod.mk.injEq] at hp
    obtain ⟨rfl, rfl⟩ := hp
    decide
  · decide

/-- C2: session-open version resolution contradicts its intent: the Go
test `resp.StatusCode <= 400 && resp.StatusCode < 500` (a slip for
`>= 400`) makes every 4xx status except exactly 400 skip the
declared-version fallback, so a 403 (insufficient permissions) probe
with a declared version fails fatally with the catch-all error instead
of using the declared version; status 400 with a declared version
succeeds, and status 400 without one fails with the
insufficient-permissions error. -/
theorem claim_C2_status_range_bug :
    GetVersion (.ok 403 none) "8.0" =
      .error (.fatal "Error retrieving SOLIDserver Version (No Answer)\n") ∧
    GetVersion (.ok 400 none) "8.0" = .ok 80 ∧
    GetVersion (.ok 400 none) "" =
      .error (.fatal ("Error retrieving SOLIDserver Version (Insufficient Permissions). " ++
        "Consider setting the SOLIDserver\x27s version using the provider options.\n")) := by
  exact ⟨rfl, rfl, rfl⟩

/-- C4 counterexample: on the declared-version fallback path the
below-100 scaling is NOT applied: a declared `"8.0"` yields session
version 80, not the 800 the claim requires on every path. -/
theorem claim_C4_counterexample :
    GetVersion (.ok 400 none) "8.0" = .ok 80 ∧
    ¬ GetVersion (.ok 400 none) "8.0" = .ok 800 := by
  refine ⟨rfl, ?_⟩
  show (Except.ok (80 : Int) : Except Diag Int) ≠ Except.ok 800
  simp

/-- C4 (amended): the version string's first up-to-three dot-separated
components are concatenated into one integer (`"7.2.1"` → 721), a
non-numeric component contributing 0; the below-100 ×10 scaling is
applied only on the probe path (`"8.0"` → 800, bare `"9"` → 90), while
the declared-version fallback path uses the concatenation unscaled
(declared `"8.0"` → 80). -/
theorem claim_C4_version_normalization :
    (∀ rv ver : String, GetVersion (.ok 200 (some rv)) ver = .ok (specScaledVersion rv)) ∧
    (∀ s : String, s ≠ "" → ∀ st : Nat, st ≤ 400 →
      GetVersion (.ok st none) s = .ok (specVersionNumber s)) ∧
    specScaledVersion "7.2.1" = 721 ∧
    specScaledVersion "8.0" = 800 ∧
    specVersionNumber "8.0" = 80 ∧
    specScaledVersion "9" = 90 ∧
    specScaledVersion "7.x.1" = 701 := by
  refine ⟨?_, ?_, rfl, rfl, rfl, rfl, rfl⟩
  · intro rv ver
    simp [GetVersion, specScaledVersion, specVersionNumber, versionConcatAux_eq_foldl]
  · intro s hs st hst
    show getVersionFallback st s = _
    unfold getVersionFallback
    rw [if_pos (⟨hst, by omega⟩ : st ≤ 400 ∧ st < 500), if_pos hs,
      versionConcatAux_eq_foldl]
    rfl

theorem claim_C4_version_normalization_witness :
    GetVersion (.ok 400 none) "8.0" = .ok (specVersionNumber "8.0") :=
  claim_C4_version_normalization.2.1 "8.0" (by decide) 400 (by norm_num)

theorem submitLoop_skip_timeouts (m : String) (att : Nat → AttemptOutcome)
    (hm : supportedMethod m = true) :
    ∀ (k rc r : Nat), k ≤ r → (∀ i, i < k → att (rc + i) = .fail .netTimeout) →
      submitLoop m att r rc = submitLoop m att (r - k) (rc + k) := by
  intro k
  induction k with
  | zero => intro rc r _ _; simp
  | succ k ih =>
    intro rc r hk hto
    obtain ⟨r', rfl⟩ : ∃ r', r = r' + 1 := ⟨r - 1, by omega⟩
    have h0 : att rc = .fail .netTimeout := by
      have := hto 0 (by omega)
      simpa using this
    have hrest : ∀ i, i < k → att (rc + 1 + i) = .fail .netTimeout := by
      intro i hi
      have := hto (i + 1) (by omega)
      simpa [Nat.add_assoc, Nat.add_comm 1 i] using this
    calc submitLoop m att (r' + 1) rc
        = submitLoop m att r' (rc + 1) := by
          simp [submitLoop, hm, h0]
      _ = submitLoop m att (r' - k) (rc + 1 + k) := ih (rc + 1) r' (by omega) hrest
      _ = submitLoop m att (r' + 1 - (k + 1)) (rc + (k + 1)) := by
          congr 1 <;> omega

/-- C6: the per-attempt retry budget of `SubmitRequest` is
method-specific: for POST, PUT and DELETE a network timeout on the
single permitted attempt returns an error immediately with no second
attempt; for GET a timeout is retried, a success on any of the 6
attempts (including the last) returns the response, exhausting all 6
returns the retry-exhausted error; and a first transport error that is
not a network timeout aborts immediately as non-retryable, on any
attempt of any method. -/
theorem claim_C6_submit_retry_budget :
    (∀ att : Nat → AttemptOutcome, att 0 = .fail .netTimeout →
      SubmitRequest "post" att = .exhausted ∧
      SubmitRequest "put" att = .exhausted ∧
      SubmitRequest "delete" att = .exhausted) ∧
    (∀ (att : Nat → AttemptOutcome) (k : Nat) (resp : HttpResp) (body : String), k < 6 →
      (∀ i, i < k → att i = .fail .netTimeout) → att k = .ok resp body →
      SubmitRequest "get" att = .ok resp body) ∧
    (∀ att : Nat → AttemptOutcome, (∀ i, i < 6 → att i = .fail .netTimeout) →
      SubmitRequest "get" att = .exhausted) ∧
    (∀ (att : Nat → AttemptOutcome) (k : Nat), k < 6 →
      (∀ i, i < k → att i = .fail .netTimeout) → att k = .fail .nonTimeout →
      SubmitRequest "get" att = .nonRetryable) ∧
    (∀ (att : Nat → AttemptOutcome) (m : String),
      (m = "post" ∨ m = "put" ∨ m = "delete") → att 0 = .fail .nonTimeout →
      SubmitRequest m att = .nonRetryable) := by
  have hskip0 : ∀ (att : Nat → AttemptOutcome) (k r : Nat), k ≤ r →
      (∀ i, i < k → att i = .fail .netTimeout) →
      submitLoop "get" att r 0 = submitLoop "get" att (r - k) k := by
    intro att k r hk hto
    have := submitLoop_skip_timeouts "get" att rfl k 0 r hk (by simpa using hto)
    simpa using this
  refine ⟨?_, ?_, ?_, ?_, ?_⟩
  · intro att h0
    refine ⟨?_, ?_, ?_⟩ <;>
      simp [SubmitRequest, maxTryOf, submitLoop, supportedMethod, h0]
  · intro att k resp body hk hto hok
    have h1 := hskip0 att k 6 (by omega) hto
    obtain ⟨r', hr'⟩ : ∃ r', 6 - k = r' + 1 := ⟨5 - k, by omega⟩
    rw [SubmitRequest, show maxTryOf "get" = 6 from rfl, h1, hr']
    simp [submitLoop, supportedMethod, hok]
  · intro att hto
    have h1 := hskip0 att 6 6 (by omega) hto
    rw [SubmitRequest, show maxTryOf "get" = 6 from rfl, h1]
    simp [submitLoop]
  · intro att k hk hto hbad
    have h1 := hskip0 att k 6 (by omega) hto
    obtain ⟨r', hr'⟩ : ∃ r', 6 - k = r' + 1 := ⟨5 - k, by omega⟩
    rw [SubmitRequest, show maxTryOf "get" = 6 from rfl, h1, hr']
    simp [submitLoop, supportedMethod, hbad]
  · intro att m hm hbad
    rcases hm with rfl | rfl | rfl <;>
      simp [SubmitRequest, maxTryOf, submitLoop, supportedMethod, hbad]

/-- Attempt oracle that always times out at the network level. -/
def oracleAllTimeout : Nat → AttemptOutcome := fun _ => .fail .netTimeout

/-- Attempt oracle that times out on attempts 0..4 and succeeds on
attempt 5, the sixth and last GET attempt. -/
def oracleLateSuccess : Nat → AttemptOutcome :=
  fun i => if i < 5 then .fail .netTimeout else .ok ⟨200⟩ "ok"

/-- Attempt oracle whose first attempt fails with a non-timeout
transport error. -/
def oracleNonTimeout : Nat → AttemptOutcome := fun _ => .fail .nonTimeout

theorem claim_C6_submit_retry_budget_witness :
    SubmitRequest "post" oracleAllTimeout = .exhausted ∧
    SubmitRequest "get" oracleLateSuccess = .ok ⟨200⟩ "ok" ∧
    SubmitRequest "get" oracleAllTimeout = .exhausted ∧
    SubmitRequest "get" oracleNonTimeout = .nonRetryable ∧
    SubmitRequest "delete" oracleNonTimeout = .nonRetryable := by
  refine ⟨(claim_C6_submit_retry_budget.1 oracleAllTimeout rfl).1,
    claim_C6_submit_retry_budget.2.1 oracleLateSuccess 5 ⟨200⟩ "ok" (by omega)
      (by decide) (by decide),
    claim_C6_submit_retry_budget.2.2.1 oracleAllTimeout (by decide),
    claim_C6_submit_retry_budget.2.2.2.1 oracleNonTimeout 0 (by omega)
      (by omega) rfl,
    claim_C6_submit_retry_budget.2.2.2.2 oracleNonTimeout "delete"
      (by tauto) rfl⟩

/-- C3 counterexample: on a 7.0+ server there is NO overall early
return once enough candidates are collected: with three free ranges of
more than 8 IDs each, `vlanidfindfree` walks all three ranges and
returns 24 candidates — the third range still contributes (`"47"` is
returned) even though 16 candidates (the query limit, and the spec's
overall VLAN cap) were already collected from the first two ranges. -/
theorem claim_C3_counterexample :
    (vlanidfindfreeCore 700 vlanThreeRanges).length = 24 ∧
    "47" ∈ vlanidfindfreeCore 700 vlanThreeRanges ∧
    ¬ (vlanidfindfreeCore 700 vlanThreeRanges).length ≤ 16 := by
  exact ⟨rfl, by decide, by decide⟩

/-- C3 (amended): `vlanidfindfree` bifurcates on the normalized server
version: below 700 it returns the `vlmvlan_vlan_id` field of each
record of the flat vlan list (the free-flag filter `row_enabled=\x272\x27`
is part of the WHERE clause it sends, and the query carries
`limit=16`); from 700 on it walks each free range from its start while
strictly less than its end, appending at most 8 IDs per range, with no
overall early return: every returned range is processed independently
(the result is the concatenation of all per-range walks). -/
theorem claim_C3_vlan_bifurcation :
    (∀ (v : Int) (bufs : List VlanRec),
      vlanidfindfreeCore v bufs =
        if v < 700 then bufs.filterMap (fun r => r.vlmvlan_vlan_id)
        else bufs.flatMap vlanRecRange) ∧
    (∀ s e : Int, vlanRangeWalk 8 s e =
      (List.range (min 8 (e - s).toNat)).map (fun i : Nat => goItoa (s + (i : Int)))) ∧
    (∀ s e : Int, (vlanRangeWalk 8 s e).length ≤ 8) ∧
    (∀ (v : Int) (dom : String), vlanParams v dom =
      if v < 700 then
        [("limit", "16"),
         ("WHERE", "vlmdomain_name=\x27" ++ dom ++ "\x27 AND row_enabled=\x272\x27")]
      else
        [("limit", "16"),
         ("WHERE", "vlmdomain_name=\x27" ++ dom ++ "\x27 AND type=\x27free\x27")]) := by
  refine ⟨?_, ?_, ?_, ?_⟩
  · intro v bufs
    simpa using vlanLoop_model v bufs []
  · intro s e
    exact vlanRangeWalk_eq_range 8 s e
  · intro s e
    rw [vlanRangeWalk_eq_range]
    simp only [List.length_map, List.length_range]
    omega
  · intro v dom
    by_cases hv : v < 700 <;> simp [vlanParams, hv]

/-- C7: the session's authenticated flag is monotonic: `NewSOLIDserver`
starts it at false, `Request` sets it exactly when it observes a
response whose status is in `[200, 204]` (a transport error leaves it
unchanged), no operation ever resets it (a true flag stays true across
any sequence of results), and the outer status-code retry set installed
by `Request` is a function of the flag: 3 attempts over `[429, 500]`
while unauthenticated and over `[429, 500, 401, 408]` once
authenticated. -/
theorem claim_C7_authenticated_monotonic :
    NewSOLIDserver.Authenticated = false ∧
    (∀ resp body, requestAuthAfter false (.ok resp body) =
      (200 ≤ resp.statusCode && resp.statusCode ≤ 204)) ∧
    (∀ auth resp body, requestAuthAfter auth (.ok resp body) =
      (auth || (200 ≤ resp.statusCode && resp.statusCode ≤ 204))) ∧
    (requestAuthAfter false .unsupported = false ∧
     requestAuthAfter false .nonRetryable = false ∧
     requestAuthAfter false .exhausted = false) ∧
    (∀ res, requestAuthAfter true res = true) ∧
    (∀ results, authFold true results = true) ∧
    (retryConfig false).1 = 3 ∧ (retryConfig true).1 = 3 ∧
    (∀ n : Nat, n ∈ (retryConfig false).2 ↔ (n = 429 ∨ n = 500)) ∧
    (∀ n : Nat, n ∈ (retryConfig true).2 ↔ (n = 429 ∨ n = 500 ∨ n = 401 ∨ n = 408)) := by
  have hTrue : ∀ res, requestAuthAfter true res = true := by
    intro res; cases res <;> simp [requestAuthAfter]
  refine ⟨rfl, fun _ _ => rfl, fun auth _ _ => rfl, ⟨rfl, rfl, rfl⟩, hTrue, ?_, rfl, rfl, ?_, ?_⟩
  · intro results
    induction results with
    | nil => rfl
    | cons r rest ih => simp [authFold, List.foldl_cons, hTrue r] at ih ⊢; exact ih
  · intro n; simp [retryConfig]
  · intro n; simp [retryConfig]; tauto

end SolidServer
